import Mathlib

/-!
Verification development for the claude-pilot proxy core: the streaming
transcoder (apps/proxy/src/transform/streaming.ts), the request
classifier/route (apps/proxy/src/utils/detection.ts and the /v1/messages
route in apps/proxy/src/index.ts), the empty-response builders
(apps/proxy/src/utils/sse.ts) and the request transformer
(apps/proxy/src/transform/request.ts).

Text is modelled as List Char.  JavaScript truthiness of optional strings
(undefined / null / empty string are falsy) and of optional numbers
(undefined / 0 are falsy) is modelled explicitly.  JSON.parse and
JSON.stringify are JavaScript built-ins, not code of this repository, so
they appear as universally quantified function parameters.
-/

namespace ClaudePilot

abbrev Str := List Char

/-- JavaScript truthiness of an optional string field: undefined, null and
the empty string are falsy. -/
def strTruthy : Option Str → Bool
  | none => false
  | some s => !s.isEmpty

/-- JavaScript substring containment, modelling String.prototype.includes. -/
def strContains (hay needle : Str) : Bool :=
  match hay with
  | [] => needle.isEmpty
  | _ :: t => needle.isPrefixOf hay || strContains t needle

/-- The character class of the JavaScript regular-expression escape \s and
of String.prototype.trim (WhiteSpace plus LineTerminator). -/
def isJsWs (c : Char) : Bool :=
  c = ' ' || c = '\t' || c = '\n' || c = '\r' || c = '\x0b' || c = '\x0c' ||
  c = '\u00A0' || c = '\u1680' || ('\u2000' ≤ c && c ≤ '\u200A') ||
  c = '\u2028' || c = '\u2029' || c = '\u202F' || c = '\u205F' ||
  c = '\u3000' || c = '\uFEFF'
/-- String.prototype.trim. -/
def trimStr (s : Str) : Str :=
  ((s.dropWhile isJsWs).reverse.dropWhile isJsWs).reverse

/-! ## Backend (OpenAI-style) stream-chunk model

Mirrors OpenAIStreamChunk in apps/proxy/src/types/openai.ts, restricted to
the fields the transcoder reads.  Optional fields are Option; absent and
null are both none. -/

structure ToolCallFunctionDelta where
  name : Option Str
  arguments : Option Str
deriving DecidableEq, Repr

structure ToolCallFragment where
  index : Nat
  id : Option Str
  function : Option ToolCallFunctionDelta
deriving DecidableEq, Repr

structure ChoiceDelta where
  content : Option Str
  tool_calls : Option (List ToolCallFragment)
deriving DecidableEq, Repr

structure ChunkChoice where
  delta : ChoiceDelta
  finish_reason : Option Str
deriving DecidableEq, Repr

structure ChunkUsage where
  prompt_tokens : Nat
  completion_tokens : Nat
deriving DecidableEq, Repr

structure OpenAIStreamChunk where
  choices : List ChunkChoice
  usage : Option ChunkUsage
deriving DecidableEq, Repr

/-! ## Client (Anthropic-style) output events

Logical events emitted by the transcoder (the SSE text framing of
formatSSEEvent, and the constant fields message id / model / role of
message_start, are abstracted away; the cache token counters of the
message_delta usage are the constant 0 in the source and are omitted).
The message_delta constructor carries its stop_reason, the optional
input_tokens of its usage object (the sse.ts builder omits that field,
the streaming transcoder always supplies it) and its output_tokens. -/

inductive ContentBlockInit where
  | text
  | toolUse (id name : Str)
deriving DecidableEq, Repr

inductive BlockDelta where
  | textDelta (s : Str)
  | inputJsonDelta (s : Str)
deriving DecidableEq, Repr

inductive AEvent where
  | messageStart (inputTokens : Nat)
  | contentBlockStart (index : Nat) (block : ContentBlockInit)
  | contentBlockDelta (index : Nat) (delta : BlockDelta)
  | contentBlockStop (index : Nat)
  | messageDelta (stopReason : Str) (inputTokens : Option Nat) (outputTokens : Nat)
  | messageStop
deriving DecidableEq, Repr

/-! ## Transcoder state

StreamState of streaming.ts together with the closure-captured flags
sentMessageStart, sentContentBlockStart, sentMessageStop and
currentContentType.  The JavaScript Map is modelled as an
insertion-ordered association list. -/

structure ToolCallAcc where
  id : Str
  name : Str
  arguments : Str
deriving DecidableEq, Repr

inductive ContentType where
  | text
  | tool_use
deriving DecidableEq, Repr

structure TransformerState where
  contentBlockIndex : Nat
  toolCalls : List (Nat × ToolCallAcc)
  inputTokens : Nat
  outputTokens : Nat
  sentMessageStart : Bool
  sentContentBlockStart : Bool
  sentMessageStop : Bool
  currentContentType : Option ContentType
deriving DecidableEq, Repr

def mapGet (m : List (Nat × ToolCallAcc)) (k : Nat) : Option ToolCallAcc :=
  (m.find? (fun p => p.1 = k)).map (·.2)

def mapSet (m : List (Nat × ToolCallAcc)) (k : Nat) (v : ToolCallAcc) :
    List (Nat × ToolCallAcc) :=
  match m with
  | [] => [(k, v)]
  | (k1, v1) :: rest =>
    if k1 = k then (k, v) :: rest else (k1, v1) :: mapSet rest k v

def initState : TransformerState :=
  { contentBlockIndex := 0
    toolCalls := []
    inputTokens := 0
    outputTokens := 0
    sentMessageStart := false
    sentContentBlockStart := false
    sentMessageStop := false
    currentContentType := none }

/-- mapFinishReason of streaming.ts. -/
def mapFinishReason (reason : Str) : Str :=
  if reason = "stop".toList then "end_turn".toList
  else if reason = "length".toList then "max_tokens".toList
  else if reason = "tool_calls".toList then "tool_use".toList
  else "end_turn".toList

/-- The "Handle text content" section of the transform body: possibly close
the open block and open a text block, then emit a text_delta. -/
def handleText (st : TransformerState) (content : Str) :
    TransformerState × List AEvent :=
  if !st.sentContentBlockStart || st.currentContentType ≠ some ContentType.text then
    let stopEvs : List AEvent :=
      if st.sentContentBlockStart then [.contentBlockStop st.contentBlockIndex] else []
    let idx := if st.sentContentBlockStart then st.contentBlockIndex + 1 else st.contentBlockIndex
    let st1 := { st with
      contentBlockIndex := idx
      sentContentBlockStart := true
      currentContentType := some ContentType.text }
    (st1, stopEvs ++ [.contentBlockStart idx .text, .contentBlockDelta idx (.textDelta content)])
  else
    (st, [.contentBlockDelta st.contentBlockIndex (.textDelta content)])

/-- The registration step of the tool-call loop body: on first sight of an
index, when the fragment carries a truthy id and function name, close any
open block and open a tool_use block. -/
def registerToolCall (st : TransformerState) (tc : ToolCallFragment) :
    TransformerState × List AEvent :=
  let existing := mapGet st.toolCalls tc.index
  let fname : Option Str := tc.function.bind (·.name)
  if existing.isNone && strTruthy tc.id && strTruthy fname then
    let stopEvs : List AEvent :=
      if st.sentContentBlockStart then [.contentBlockStop st.contentBlockIndex] else []
    let idx := if st.sentContentBlockStart then st.contentBlockIndex + 1 else st.contentBlockIndex
    let cid := tc.id.getD []
    let cname := fname.getD []
    let st1 := { st with
      contentBlockIndex := idx
      toolCalls := mapSet st.toolCalls tc.index { id := cid, name := cname, arguments := [] }
      sentContentBlockStart := true
      currentContentType := some ContentType.tool_use }
    (st1, stopEvs ++ [.contentBlockStart idx (.toolUse cid cname)])
  else
    (st, [])

/-- The argument-forwarding step of the tool-call loop body: when the
fragment carries truthy arguments and its index is registered, accumulate
and forward them untouched. -/
def forwardToolArgs (st : TransformerState) (tc : ToolCallFragment) :
    TransformerState × List AEvent :=
  let fargs : Option Str := tc.function.bind (·.arguments)
  if strTruthy fargs then
    match mapGet st.toolCalls tc.index with
    | some call =>
      let args := fargs.getD []
      let st2 := { st with
        toolCalls := mapSet st.toolCalls tc.index { call with arguments := call.arguments ++ args } }
      (st2, [.contentBlockDelta st.contentBlockIndex (.inputJsonDelta args)])
    | none => (st, [])
  else
    (st, [])

def handleToolFragment (st : TransformerState) (tc : ToolCallFragment) :
    TransformerState × List AEvent :=
  let r1 := registerToolCall st tc
  let r2 := forwardToolArgs r1.1 tc
  (r2.1, r1.2 ++ r2.2)

def handleToolCalls (st : TransformerState) (tcs : List ToolCallFragment) :
    TransformerState × List AEvent :=
  match tcs with
  | [] => (st, [])
  | tc :: rest =>
    let r1 := handleToolFragment st tc
    let r2 := handleToolCalls r1.1 rest
    (r2.1, r1.2 ++ r2.2)

/-- The "Handle finish_reason" section: close the open block, emit the
message_delta with the best-known usage and the message_stop, and set
sentMessageStop, guarded by the sentMessageStop flag. -/
def handleFinish (st : TransformerState) (ck : OpenAIStreamChunk)
    (choice : ChunkChoice) : TransformerState × List AEvent :=
  if strTruthy choice.finish_reason && !st.sentMessageStop then
    let stopEvs : List AEvent :=
      if st.sentContentBlockStart then [.contentBlockStop st.contentBlockIndex] else []
    let stopReason := mapFinishReason (choice.finish_reason.getD [])
    let inTok := match ck.usage with
      | some u => if u.prompt_tokens ≠ 0 then u.prompt_tokens else st.inputTokens
      | none => st.inputTokens
    let outTok := match ck.usage with
      | some u => if u.completion_tokens ≠ 0 then u.completion_tokens else st.outputTokens
      | none => st.outputTokens
    ({ st with sentMessageStop := true },
      stopEvs ++ [.messageDelta stopReason (some inTok) outTok, .messageStop])
  else
    (st, [])

/-- The trailing "Track usage" assignment. -/
def trackUsage (st : TransformerState) (ck : OpenAIStreamChunk) : TransformerState :=
  match ck.usage with
  | some u => { st with outputTokens := u.completion_tokens }
  | none => st

/-- The "Send message_start on first chunk" section. -/
def messageStartStep (st : TransformerState) (ck : OpenAIStreamChunk) :
    TransformerState × List AEvent :=
  if st.sentMessageStart then (st, [])
  else
    let it := match ck.usage with
      | some u => if u.prompt_tokens ≠ 0 then u.prompt_tokens else st.inputTokens
      | none => st.inputTokens
    ({ st with inputTokens := it, sentMessageStart := true }, [AEvent.messageStart it])

/-- The guard of the "Handle text content" section. -/
def contentStep (st : TransformerState) (choice : ChunkChoice) :
    TransformerState × List AEvent :=
  if strTruthy choice.delta.content then handleText st (choice.delta.content.getD [])
  else (st, [])

/-- The guard of the "Handle tool calls" section. -/
def toolCallsStep (st : TransformerState) (choice : ChunkChoice) :
    TransformerState × List AEvent :=
  match choice.delta.tool_calls with
  | some tcs => handleToolCalls st tcs
  | none => (st, [])

/-- The per-choice part of the loop body: text content, tool calls,
finish_reason, usage tracking, in source order. -/
def processChoice (st : TransformerState) (ck : OpenAIStreamChunk)
    (choice : ChunkChoice) : TransformerState × List AEvent :=
  let r1 := contentStep st choice
  let r2 := toolCallsStep r1.1 choice
  let r3 := handleFinish r2.1 ck choice
  (trackUsage r3.1 ck, r1.2 ++ r2.2 ++ r3.2)

/-- Processing of one parsed backend chunk: the body of the per-line loop of
the transform callback after the data-prefix / [DONE] / JSON.parse
dispatch. -/
def processChunk (st : TransformerState) (ck : OpenAIStreamChunk) :
    TransformerState × List AEvent :=
  let r0 := messageStartStep st ck
  match ck.choices.head? with
  | none => r0
  | some choice =>
    let r := processChoice r0.1 ck choice
    (r.1, r0.2 ++ r.2)

/-- The three ways a complete logical line is dispatched: the [DONE]
sentinel (a no-op in this transcoder), a line that is skipped (no data
prefix, or unparseable JSON), or a parsed chunk. -/
inductive LineInput where
  | done
  | skip
  | chunk (ck : OpenAIStreamChunk)
deriving DecidableEq, Repr

def processLineInput (st : TransformerState) : LineInput → TransformerState × List AEvent
  | .done => (st, [])
  | .skip => (st, [])
  | .chunk ck => processChunk st ck

def runLineInputs (st : TransformerState) :
    List LineInput → TransformerState × List AEvent
  | [] => (st, [])
  | l :: rest =>
    let r1 := processLineInput st l
    let r2 := runLineInputs r1.1 rest
    (r2.1, r1.2 ++ r2.2)

/-! ## Transport-chunk layer

The transform callback decodes each transport chunk, appends it to the
carried buffer, splits on newlines, keeps the trailing (possibly
incomplete) segment as the new buffer and dispatches each complete line.
JavaScript String.prototype.split is modelled by splitNl; splitNlAux
returns the first segment and the list of remaining segments, so the
result is never empty, as in JavaScript. -/

def splitNlAux : Str → Str × List Str
  | [] => ([], [])
  | c :: rest =>
    let r := splitNlAux rest
    if c = '\n' then ([], r.1 :: r.2) else (c :: r.1, r.2)

def splitNl (s : Str) : List Str := (splitNlAux s).1 :: (splitNlAux s).2

def dataPrefixStr : Str := "data: ".toList

def doneSentinel : Str := "[DONE]".toList

/-- Dispatch of one complete line: lines without the data prefix are
skipped, the [DONE] sentinel is recognised after slicing off the prefix
and trimming, and the rest is handed to JSON.parse (the parse parameter);
a parse failure skips the line. -/
def classifyLine (parse : Str → Option OpenAIStreamChunk) (line : Str) : LineInput :=
  if !dataPrefixStr.isPrefixOf line then .skip
  else
    let d := trimStr (line.drop 6)
    if d = doneSentinel then .done
    else
      match parse d with
      | some ck => .chunk ck
      | none => .skip

def runLines (parse : Str → Option OpenAIStreamChunk) (st : TransformerState)
    (lines : List Str) : TransformerState × List AEvent :=
  runLineInputs st (lines.map (classifyLine parse))

/-- The state carried across transform calls: the transcoder state and the
buffered trailing partial line. -/
structure StreamSession where
  ts : TransformerState
  buffer : Str
deriving DecidableEq, Repr

def initSession : StreamSession := { ts := initState, buffer := [] }

/-- One invocation of the transform callback on a decoded transport chunk. -/
def feedChunk (parse : Str → Option OpenAIStreamChunk) (s : StreamSession)
    (chunk : Str) : StreamSession × List AEvent :=
  let parts := splitNl (s.buffer ++ chunk)
  let r := runLines parse s.ts parts.dropLast
  ({ ts := r.1, buffer := parts.getLastD [] }, r.2)

def feedChunks (parse : Str → Option OpenAIStreamChunk) (s : StreamSession) :
    List Str → StreamSession × List AEvent
  | [] => (s, [])
  | c :: rest =>
    let r1 := feedChunk parse s c
    let r2 := feedChunks parse r1.1 rest
    (r2.1, r1.2 ++ r2.2)

/-! ## Request model and classifier

Mirrors the AnthropicRequest shape of types/anthropic.ts (the fields the
detection utilities and the route read; sampling parameters and the tool
list are not consulted by them and are omitted) and the detection
utilities of utils/detection.ts with the sentinel constants of
constants.ts. -/

/-- An opaque JSON value (the tool_use input object is never inspected by
this code, only serialised). -/
inductive Json where
  | null
  | bool (b : Bool)
  | num (n : Int)
  | str (s : Str)
  | arr (xs : List Json)
  | obj (fields : List (Str × Json))

inductive ABlock where
  | text (t : Str)
  | image (mediaType data : Str)
  | toolUse (id name : Str) (input : Json)
  | toolResult (toolUseId : Str) (content : Sum Str (List ABlock)) (isError : Option Bool)

inductive ARole where
  | user
  | assistant
deriving DecidableEq, Repr

structure AMessage where
  role : ARole
  content : Sum Str (List ABlock)

structure AnthropicRequest where
  model : Str
  messages : List AMessage
  system : Option (Sum Str (List Str))
  stream : Option Bool

/-- JavaScript truthiness of the optional stream flag. -/
def streamTruthy : Option Bool → Bool
  | some b => b
  | none => false

def WEB_SEARCH_SYSTEM_PATTERN : Str := "performing a web search tool use".toList

def SUGGESTION_MODE_PATTERN : Str := "[SUGGESTION MODE:".toList

def SUBAGENT_PATTERNS : List Str :=
  [ "file search specialist".toList,
    "software architect and planning specialist".toList,
    "command execution specialist".toList,
    "status line setup agent".toList,
    "fast agent that returns output as quickly as possible".toList,
    "claude-code-guide".toList,
    "Given the user\x27s message, you should use the tools available to complete the task".toList ]

/-- getSystemText of detection.ts: a string system prompt is returned as
is, a block array is the concatenation of its text fields. -/
def getSystemText (req : AnthropicRequest) : Str :=
  match req.system with
  | none => []
  | some (.inl s) => s
  | some (.inr blocks) => blocks.flatten

/-- getMessageText of detection.ts: string content as is, otherwise the
concatenation of the text blocks. -/
def getMessageText (m : AMessage) : Str :=
  match m.content with
  | .inl s => s
  | .inr blocks =>
    (blocks.filterMap fun b =>
      match b with
      | .text t => some t
      | _ => none).flatten

/-! The regular expression WEB_SEARCH_MESSAGE_PATTERN of constants.ts,
written /Perform a web search for the query:\s*(.+)/i.  webSearchMatch
scans for the leftmost position where the literal matches
case-insensitively; after the literal, the greedy whitespace run is
consumed, and the capture is the maximal run of at least one
non-LineTerminator character (the ECMAScript dot excludes LF, CR, U+2028
and U+2029), with the regex-engine backtracking into the whitespace run
when only line terminators follow it. -/

/-- The ECMAScript LineTerminator set, which the dot does not match. -/
def isLineTerminator (c : Char) : Bool :=
  c = '\n' || c = '\r' || c = '\u2028' || c = '\u2029'

def webSearchLiteral : Str := "Perform a web search for the query:".toList

def charEqCI (a b : Char) : Bool := a.toLower = b.toLower

def isPrefixCI : Str → Str → Bool
  | [], _ => true
  | _ :: _, [] => false
  | p :: ps, c :: cs => charEqCI p c && isPrefixCI ps cs

/-- The tail of the pattern, \s*(.+), applied at a fixed position: greedy
whitespace, then at least one character the dot matches; when the
whitespace run reaches the end of the text, the engine backtracks to the
last whitespace character that is not a LineTerminator (every character
between it and the end is a LineTerminator, so the capture is that single
character). -/
def webSearchCaptureAt (rest : Str) : Option Str :=
  let r1 := rest.dropWhile isJsWs
  if !r1.isEmpty then some (r1.takeWhile (fun c => !isLineTerminator c))
  else
    match (rest.takeWhile isJsWs).reverse.dropWhile isLineTerminator with
    | [] => none
    | c :: _ => some [c]

def webSearchMatch : Str → Option Str
  | [] => none
  | c :: rest =>
    if isPrefixCI webSearchLiteral (c :: rest) then
      match webSearchCaptureAt ((c :: rest).drop webSearchLiteral.length) with
      | some cap => some cap
      | none => webSearchMatch rest
    else webSearchMatch rest

def msg0 (req : AnthropicRequest) : AMessage :=
  req.messages.headD { role := .user, content := .inl [] }

/-- detectWebSearchRequest of detection.ts: none models the null return,
some models the trimmed first capture group. -/
def detectWebSearchRequest (req : AnthropicRequest) : Option Str :=
  if !strContains (getSystemText req) WEB_SEARCH_SYSTEM_PATTERN then none
  else if req.messages.length ≠ 1 then none
  else
    match webSearchMatch (getMessageText (msg0 req)) with
    | some cap => some (trimStr cap)
    | none => none

/-- isSuggestionRequest of detection.ts. -/
def isSuggestionRequest (req : AnthropicRequest) : Bool :=
  match req.messages.getLast? with
  | none => false
  | some m => strContains (getMessageText m) SUGGESTION_MODE_PATTERN

/-- hasToolResult of detection.ts. -/
def hasToolResult (m : AMessage) : Bool :=
  match m.content with
  | .inl _ => false
  | .inr blocks =>
    blocks.any fun b =>
      match b with
      | .toolResult .. => true
      | _ => false

def isSubagentRequest (req : AnthropicRequest) : Bool :=
  SUBAGENT_PATTERNS.any fun p => strContains (getSystemText req) p

inductive XInit where
  | user
  | agent
deriving DecidableEq, Repr

/-- getXInitiator of detection.ts. -/
def getXInitiator (req : AnthropicRequest) : XInit :=
  if isSubagentRequest req then .agent
  else
    match req.messages.getLast? with
    | none => .user
    | some m =>
      if m.role = ARole.user && hasToolResult m then .agent
      else if m.role = ARole.user then .user else .agent

/-! ## The suggestion-block responses of utils/sse.ts -/

/-- buildEmptyStreamingResponse: message_start with zero usage, a
message_delta with stop_reason end_turn and zero output tokens (its usage
object has no input_tokens field, hence none), message_stop. -/
def buildEmptyStreamingEvents : List AEvent :=
  [ .messageStart 0,
    .messageDelta "end_turn".toList none 0,
    .messageStop ]

/-- buildEmptyNonStreamingResponse (the message id string is abstracted
away). -/
structure ANonStreamingMessage where
  model : Str
  content : List ABlock
  stop_reason : Str
  usage_input : Nat
  usage_output : Nat

def buildEmptyNonStreamingResponse (model : Str) : ANonStreamingMessage :=
  { model := model
    content := []
    stop_reason := "end_turn".toList
    usage_input := 0
    usage_output := 0 }

/-! ## The /v1/messages route of apps/proxy/src/index.ts

The route first checks web search (when enabled), then the suggestion
block, then forwards to the backend; forwarding carries the X-Initiator
billing header computed by getXInitiator. -/

inductive RouteAction where
  | webSearch (query : Str)
  | blockedSuggestion (response : Sum (List AEvent) ANonStreamingMessage)
  | forwardToBackend (xInitiator : XInit)

def route (webSearchEnabled : Bool) (req : AnthropicRequest) : RouteAction :=
  if webSearchEnabled && strTruthy (detectWebSearchRequest req) then
    .webSearch ((detectWebSearchRequest req).getD [])
  else if isSuggestionRequest req then
    .blockedSuggestion
      (if streamTruthy req.stream then .inl buildEmptyStreamingEvents
       else .inr (buildEmptyNonStreamingResponse req.model))
  else
    .forwardToBackend (getXInitiator req)

/-- The routing categories of the specification.  SyntheticUtility exists
in the data model (sidecar requests) but the cited route does not produce
it. -/
inductive RoutingDecision where
  | directUserTurn
  | agentContinuation
  | syntheticUtility
  | suggestionStub
  | dedicatedToolExecution (query : Str)
deriving DecidableEq, Repr

def decisionOf : RouteAction → RoutingDecision
  | .webSearch q => .dedicatedToolExecution q
  | .blockedSuggestion _ => .suggestionStub
  | .forwardToBackend .user => .directUserTurn
  | .forwardToBackend .agent => .agentContinuation

/-! ## Request transformer (apps/proxy/src/transform/request.ts)

Only transformMessage and its content helpers are modelled (the claims are
about the ToolResult flattening).  JSON.stringify appears as the function
parameters stringifyBlocks (for a tool_result content array) and
stringifyJson (for a tool_use input object). -/

inductive OAIContentPart where
  | textPart (t : Str)
  | imageUrlPart (url : Str)
deriving Repr

inductive OAIContent where
  | str (s : Str)
  | parts (ps : List OAIContentPart)
deriving Repr

structure OAIToolCall where
  id : Str
  name : Str
  arguments : Str
deriving Repr

inductive OAIMessage where
  | system (content : Str)
  | user (content : OAIContent)
  | assistant (content : Option Str) (tool_calls : List OAIToolCall)
  | tool (tool_call_id : Str) (content : Str)
deriving Repr

def isTextBlock : ABlock → Bool
  | .text _ => true
  | _ => false

def isToolResultBlock : ABlock → Bool
  | .toolResult .. => true
  | _ => false

/-- transformContentToString: the concatenation of the text blocks (a
string passes through). -/
def transformContentToString (content : Sum Str (List ABlock)) : Str :=
  match content with
  | .inl s => s
  | .inr blocks =>
    (blocks.filterMap fun b =>
      match b with
      | .text t => some t
      | _ => none).flatten

/-- transformContentToOpenAI: plain text collapses to a string; content
with non-text blocks keeps text and image parts (images as base64 data
URLs) and drops the rest. -/
def transformContentToOpenAI (content : Sum Str (List ABlock)) : OAIContent :=
  match content with
  | .inl s => .str s
  | .inr blocks =>
    if blocks.any fun b => !isTextBlock b then
      .parts (blocks.filterMap fun b =>
        match b with
        | .text t => some (.textPart t)
        | .image mt d =>
          some (.imageUrlPart ("data:".toList ++ mt ++ ";base64,".toList ++ d))
        | _ => none)
    else
      .str ((blocks.filterMap fun b =>
        match b with
        | .text t => some t
        | _ => none).flatten)

/-- extractToolCalls: the tool_use blocks as backend call-list entries. -/
def extractToolCalls (stringifyJson : Json → Str) (content : List ABlock) :
    List OAIToolCall :=
  content.filterMap fun b =>
    match b with
    | .toolUse id name input =>
      some { id := id, name := name, arguments := stringifyJson input }
    | _ => none

/-- The per-block mapping inside the toolResults.map of transformMessage:
string content passes through verbatim, any other content shape is
JSON-stringified.  The last case mirrors the defensive throw and is
unreachable under the tool_result filter. -/
def toolResultToMessage (stringifyBlocks : List ABlock → Str) : ABlock → OAIMessage
  | .toolResult tid (.inl s) _ => .tool tid s
  | .toolResult tid (.inr bs) _ => .tool tid (stringifyBlocks bs)
  | _ => .tool [] []

/-- transformMessage: a user message with tool_result blocks becomes one
backend tool message per tool_result (a 1:N expansion), otherwise a single
message; an assistant message folds its tool_use blocks into the call list
and its text into one field, with empty text encoded as null. -/
def transformMessage (stringifyBlocks : List ABlock → Str)
    (stringifyJson : Json → Str) (msg : AMessage) : Sum OAIMessage (List OAIMessage) :=
  match msg.role with
  | .user =>
    match msg.content with
    | .inr blocks =>
      let toolResults := blocks.filter isToolResultBlock
      if !toolResults.isEmpty then
        .inr (toolResults.map (toolResultToMessage stringifyBlocks))
      else
        .inl (.user (transformContentToOpenAI msg.content))
    | .inl _ => .inl (.user (transformContentToOpenAI msg.content))
  | .assistant =>
    match msg.content with
    | .inl s => .inl (.assistant (some s) [])
    | .inr blocks =>
      let toolCalls := extractToolCalls stringifyJson blocks
      let textContent := transformContentToString (.inr blocks)
      .inl (.assistant (if textContent.isEmpty then none else some textContent) toolCalls)

/-! ## Observations on the output event stream

scanBlocks walks an event list carrying the index of the currently open
content block; it returns none as soon as the block discipline is broken
(a block opened while another is open, or a stop without a matching open),
and otherwise the open block at the end.  Event class discriminators
support counting. -/

def scanStep : AEvent → Option Nat → Option (Option Nat)
  | .contentBlockStart i _, none => some (some i)
  | .contentBlockStart _ _, some _ => none
  | .contentBlockStop i, some j => if i = j then some none else none
  | .contentBlockStop _, none => none
  | _, cur => some cur

def scanBlocks : List AEvent → Option Nat → Option (Option Nat)
  | [], cur => some cur
  | e :: rest, cur =>
    match scanStep e cur with
    | some cur1 => scanBlocks rest cur1
    | none => none

def isStartEv : AEvent → Bool
  | .contentBlockStart .. => true
  | _ => false

def isStopEv : AEvent → Bool
  | .contentBlockStop _ => true
  | _ => false

def isMessageStopEv : AEvent → Bool
  | .messageStop => true
  | _ => false

def isMessageDeltaEv : AEvent → Bool
  | .messageDelta .. => true
  | _ => false

/-- The content block the transformer believes open: none after the
terminal pair (the finish handler closed any open block) and before the
first block. -/
def openOf (st : TransformerState) : Option Nat :=
  if st.sentMessageStop then none
  else if st.sentContentBlockStart then some st.contentBlockIndex else none

/-- A backend line whose first choice carries a truthy finish_reason. -/
def lineHasFinish : LineInput → Bool
  | .chunk ck =>
    match ck.choices.head? with
    | some c => strTruthy c.finish_reason
    | none => false
  | _ => false

/-- A backend line whose first choice carries text content or a tool_calls
array. -/
def lineContentBearing : LineInput → Bool
  | .chunk ck =>
    match ck.choices.head? with
    | some c => strTruthy c.delta.content || c.delta.tool_calls.isSome
    | none => false
  | _ => false

/-- No content-bearing line follows a finish-reason line.  The flag records
whether a finish-reason line has been seen. -/
def okLines : Bool → List LineInput → Bool
  | _, [] => true
  | true, l :: ls => !lineContentBearing l && okLines true ls
  | false, l :: ls => okLines (lineHasFinish l) ls

/-- The concatenation, in emission order, of the strings carried by the
forwarded input_json_delta events. -/
def forwardedJson (evs : List AEvent) : Str :=
  (evs.filterMap fun e =>
    match e with
    | .contentBlockDelta _ (.inputJsonDelta s) => some s
    | _ => none).flatten

/-- The concatenation of the function.arguments fragments of a tool-call
fragment sequence as received from the backend. -/
def backendArgs (frags : List ToolCallFragment) : Str :=
  (frags.map fun tc => (tc.function.bind (·.arguments)).getD []).flatten

/-! ## Concrete input builders for witnesses and counterexamples -/

def mkContentChunk (content : Option Str) (finish : Option Str) : OpenAIStreamChunk :=
  { choices := [{ delta := { content := content, tool_calls := none },
                  finish_reason := finish }]
    usage := none }

def mkToolChunk (tcs : List ToolCallFragment) : OpenAIStreamChunk :=
  { choices := [{ delta := { content := none, tool_calls := some tcs },
                  finish_reason := none }]
    usage := none }

/-- A backend line carrying exactly one tool-call fragment. -/
def fragLine (tc : ToolCallFragment) : LineInput := .chunk (mkToolChunk [tc])

/-- Are there no terminal events (message_delta or message_stop) in a list? -/
def termFree (evs : List AEvent) : Bool :=
  evs.all fun e => !isMessageStopEv e && !isMessageDeltaEv e

/-- Text deltas Hel, lo, then finish_reason stop: the first scenario of the
specification. -/
def linesTextFinish : List LineInput :=
  [ .chunk (mkContentChunk (some "Hel".toList) none),
    .chunk (mkContentChunk (some "lo".toList) none),
    .chunk (mkContentChunk none (some "stop".toList)) ]

/-- A single text delta with no terminal delta afterwards. -/
def lineTextOnly : List LineInput :=
  [ .chunk (mkContentChunk (some "Hel".toList) none) ]

/-- A text delta, a finish_reason delta, then another text delta. -/
def linesAfterStop : List LineInput :=
  [ .chunk (mkContentChunk (some "hi".toList) none),
    .chunk (mkContentChunk none (some "stop".toList)),
    .chunk (mkContentChunk (some "more".toList) none) ]

/-- The specification scenario fragments: an opening fragment with id c1
and name search, then two argument fragments. -/
def fragSearchStart : ToolCallFragment :=
  { index := 0, id := some "c1".toList,
    function := some { name := some "search".toList, arguments := none } }

def fragSearchArgs1 : ToolCallFragment :=
  { index := 0, id := none,
    function := some { name := none, arguments := some "\x7b\"q\":".toList } }

def fragSearchArgs2 : ToolCallFragment :=
  { index := 0, id := none,
    function := some { name := none, arguments := some "\"x\"\x7d".toList } }

/-- A tool-call fragment carrying arguments but no id and no name. -/
def fragArgsOnly : ToolCallFragment :=
  { index := 0, id := none,
    function := some { name := none, arguments := some "x".toList } }

/-- Does the route treat the request as a dedicated web-search execution? -/
def isWebSearchAction : RouteAction → Bool
  | .webSearch _ => true
  | _ => false

def isToolMessage : OAIMessage → Bool
  | .tool _ _ => true
  | _ => false

/-! Concrete requests and helpers for the classifier claims. -/

/-- A request that matches web-search rule 1 while its only message also
contains a tool_result block and the suggestion sentinel in its text. -/
def cex5Message : AMessage :=
  { role := .user
    content := .inr
      [ .toolResult "t1".toList (.inl "ok".toList) none,
        .text "Perform a web search for the query: x [SUGGESTION MODE: y]".toList ] }

def cex5Request : AnthropicRequest :=
  { model := "m".toList
    messages := [cex5Message]
    system := some (.inl "You are performing a web search tool use".toList)
    stream := none }

/-- A request for which the web-search regex matches but the captured
payload trims to the empty string. -/
def cex6Request : AnthropicRequest :=
  { model := "m".toList
    messages := [{ role := .user,
                   content := .inl "Perform a web search for the query: ".toList }]
    system := some (.inl "performing a web search tool use".toList)
    stream := none }

/-- A well-formed dedicated web-search execution request. -/
def wit6Request : AnthropicRequest :=
  { model := "m".toList
    messages := [{ role := .user,
                   content := .inl "Perform a web search for the query: anthropic lean".toList }]
    system := some (.inl "performing a web search tool use".toList)
    stream := none }

/-- A suggestion-stub request whose last message carries a tool_result and
the sentinel text. -/
def wit5Message : AMessage :=
  { role := .user
    content := .inr
      [ .toolResult "t9".toList (.inl "done".toList) none,
        .text "[SUGGESTION MODE: quiet]".toList ] }

def wit5Request : AnthropicRequest :=
  { model := "m".toList
    messages := [wit5Message]
    system := none
    stream := none }

/-- A streaming suggestion request. -/
def wit10Message : AMessage :=
  { role := .user, content := .inl "please [SUGGESTION MODE: on] thanks".toList }

def wit10Request : AnthropicRequest :=
  { model := "claude-sonnet-4".toList
    messages := [wit10Message]
    system := none
    stream := some true }

/-- Stub serialisation functions standing in for JSON.stringify in
witnesses. -/
def stubStringifyBlocks : List ABlock → Str := fun _ => "stub".toList

def stubStringifyJson : Json → Str := fun _ => "stub".toList

/-- A user content array with a text block, two tool_result blocks (one
with string content, one with a block-array content). -/
def c8Blocks : List ABlock :=
  [ .text "x".toList,
    .toolResult "id1".toList (.inl "ok".toList) none,
    .toolResult "id2".toList (.inr [.text "42".toList]) none ]

/-- A user content array mixing text, an image and one tool_result. -/
def c9Blocks : List ABlock :=
  [ .text "before".toList,
    .image "image/png".toList "AAAA".toList,
    .toolResult "id3".toList (.inl "ok".toList) none ]

/-! # Theorems -/

theorem runLineInputs_append (st : TransformerState) (l1 l2 : List LineInput) :
    runLineInputs st (l1 ++ l2) =
      ((runLineInputs (runLineInputs st l1).1 l2).1,
        (runLineInputs st l1).2 ++ (runLineInputs (runLineInputs st l1).1 l2).2) := by
  induction l1 generalizing st with
  | nil => simp [runLineInputs]
  | cons l ls ih =>
    simp only [List.cons_append, runLineInputs, List.append_eq]
    rw [ih]
    simp [List.append_assoc]

theorem scanBlocks_append (a b : List AEvent) (cur : Option Nat) :
    scanBlocks (a ++ b) cur =
      (scanBlocks a cur).bind fun mid => scanBlocks b mid := by
  induction a generalizing cur with
  | nil => simp [scanBlocks]
  | cons e rest ih =>
    simp only [List.cons_append, scanBlocks]
    cases h : scanStep e cur with
    | none => simp
    | some c1 => simp [ih]

theorem scanBlocks_count : ∀ (evs : List AEvent) (cur fin : Option Nat),
    scanBlocks evs cur = some fin →
    evs.countP isStartEv + (if cur.isSome then 1 else 0) =
      evs.countP isStopEv + (if fin.isSome then 1 else 0)
  | [], cur, fin, h => by
    simp only [scanBlocks, Option.some.injEq] at h
    subst h
    simp
  | e :: rest, cur, fin, h => by
    simp only [scanBlocks] at h
    cases e with
    | contentBlockStart i b =>
      cases cur with
      | none =>
        simp only [scanStep] at h
        have ih := scanBlocks_count rest (some i) fin h
        simp [List.countP_cons, isStartEv, isStopEv] at ih ⊢
        omega
      | some j => simp [scanStep] at h
    | contentBlockStop i =>
      cases cur with
      | none => simp [scanStep] at h
      | some j =>
        by_cases hij : i = j
        · simp only [scanStep, hij, if_pos rfl] at h
          have ih := scanBlocks_count rest none fin h
          simp [List.countP_cons, isStartEv, isStopEv] at ih ⊢
          omega
        · simp [scanStep, hij] at h
    | messageStart n =>
      simp only [scanStep] at h
      have ih := scanBlocks_count rest cur fin h
      simp [List.countP_cons, isStartEv, isStopEv] at ih ⊢
      omega
    | contentBlockDelta i d =>
      simp only [scanStep] at h
      have ih := scanBlocks_count rest cur fin h
      simp [List.countP_cons, isStartEv, isStopEv] at ih ⊢
      omega
    | messageDelta r it ot =>
      simp only [scanStep] at h
      have ih := scanBlocks_count rest cur fin h
      simp [List.countP_cons, isStartEv, isStopEv] at ih ⊢
      omega
    | messageStop =>
      simp only [scanStep] at h
      have ih := scanBlocks_count rest cur fin h
      simp [List.countP_cons, isStartEv, isStopEv] at ih ⊢
      omega

/-! ## Step lemmas for the transcoder state machine -/

theorem handleText_sMS (st : TransformerState) (c : Str) :
    (handleText st c).1.sentMessageStop = st.sentMessageStop := by
  unfold handleText
  split <;> rfl

theorem handleText_scan (st : TransformerState) (c : Str)
    (h : st.sentMessageStop = false) :
    scanBlocks (handleText st c).2 (openOf st) = some (openOf (handleText st c).1) := by
  by_cases hs : st.sentContentBlockStart
  · by_cases hct : st.currentContentType = some ContentType.text
    · simp [handleText, openOf, hs, hct, h, scanBlocks, scanStep]
    · simp [handleText, openOf, hs, hct, h, scanBlocks, scanStep]
  · simp [handleText, openOf, hs, h, scanBlocks, scanStep]

theorem registerToolCall_sMS (st : TransformerState) (tc : ToolCallFragment) :
    (registerToolCall st tc).1.sentMessageStop = st.sentMessageStop := by
  unfold registerToolCall
  by_cases hr : ((mapGet st.toolCalls tc.index).isNone && strTruthy tc.id &&
      strTruthy (tc.function.bind fun x => x.name)) = true
  · simp [hr]
  · simp [hr]

theorem registerToolCall_scan (st : TransformerState) (tc : ToolCallFragment)
    (h : st.sentMessageStop = false) :
    scanBlocks (registerToolCall st tc).2 (openOf st) =
      some (openOf (registerToolCall st tc).1) := by
  unfold registerToolCall
  by_cases hr : ((mapGet st.toolCalls tc.index).isNone && strTruthy tc.id &&
      strTruthy (tc.function.bind fun x => x.name)) = true
  · by_cases hs : st.sentContentBlockStart
    · simp [hr, hs, openOf, h, scanBlocks, scanStep]
    · simp [hr, hs, openOf, h, scanBlocks, scanStep]
  · simp [hr, scanBlocks]

theorem forwardToolArgs_sMS (st : TransformerState) (tc : ToolCallFragment) :
    (forwardToolArgs st tc).1.sentMessageStop = st.sentMessageStop := by
  unfold forwardToolArgs
  by_cases ha : strTruthy (tc.function.bind fun x => x.arguments) = true
  · cases hm : mapGet st.toolCalls tc.index with
    | some call => simp [ha, hm]
    | none => simp [ha, hm]
  · simp [ha]

theorem forwardToolArgs_openOf (st : TransformerState) (tc : ToolCallFragment) :
    openOf (forwardToolArgs st tc).1 = openOf st := by
  unfold forwardToolArgs
  by_cases ha : strTruthy (tc.function.bind fun x => x.arguments) = true
  · cases hm : mapGet st.toolCalls tc.index with
    | some call => simp [ha, hm, openOf]
    | none => simp [ha, hm]
  · simp [ha]

theorem forwardToolArgs_scan (st : TransformerState) (tc : ToolCallFragment)
    (cur : Option Nat) :
    scanBlocks (forwardToolArgs st tc).2 cur = some cur := by
  unfold forwardToolArgs
  by_cases ha : strTruthy (tc.function.bind fun x => x.arguments) = true
  · cases hm : mapGet st.toolCalls tc.index with
    | some call => simp [ha, hm, scanBlocks, scanStep]
    | none => simp [ha, hm, scanBlocks]
  · simp [ha, scanBlocks]

theorem handleToolFragment_sMS (st : TransformerState) (tc : ToolCallFragment) :
    (handleToolFragment st tc).1.sentMessageStop = st.sentMessageStop := by
  unfold handleToolFragment
  rw [forwardToolArgs_sMS, registerToolCall_sMS]

theorem handleToolFragment_scan (st : TransformerState) (tc : ToolCallFragment)
    (h : st.sentMessageStop = false) :
    scanBlocks (handleToolFragment st tc).2 (openOf st) =
      some (openOf (handleToolFragment st tc).1) := by
  unfold handleToolFragment
  simp only
  rw [scanBlocks_append, registerToolCall_scan st tc h, Option.some_bind,
    forwardToolArgs_scan, forwardToolArgs_openOf]

theorem handleToolCalls_sMS (st : TransformerState) (tcs : List ToolCallFragment) :
    (handleToolCalls st tcs).1.sentMessageStop = st.sentMessageStop := by
  induction tcs generalizing st with
  | nil => rfl
  | cons tc rest ih =>
    unfold handleToolCalls
    rw [ih, handleToolFragment_sMS]

theorem handleToolCalls_scan (st : TransformerState) (tcs : List ToolCallFragment)
    (h : st.sentMessageStop = false) :
    scanBlocks (handleToolCalls st tcs).2 (openOf st) =
      some (openOf (handleToolCalls st tcs).1) := by
  induction tcs generalizing st with
  | nil => rfl
  | cons tc rest ih =>
    unfold handleToolCalls
    simp only
    rw [scanBlocks_append, handleToolFragment_scan st tc h, Option.some_bind]
    exact ih (handleToolFragment st tc).1 ((handleToolFragment_sMS st tc).trans h)

theorem handleFinish_sMS (st : TransformerState) (ck : OpenAIStreamChunk)
    (choice : ChunkChoice) :
    (handleFinish st ck choice).1.sentMessageStop =
      (strTruthy choice.finish_reason || st.sentMessageStop) := by
  unfold handleFinish
  by_cases hf : strTruthy choice.finish_reason = true
  · by_cases hm : st.sentMessageStop = true
    · simp [hf, hm]
    · simp [hf, hm]
  · simp [hf]

theorem handleFinish_scan (st : TransformerState) (ck : OpenAIStreamChunk)
    (choice : ChunkChoice) (h : st.sentMessageStop = false) :
    scanBlocks (handleFinish st ck choice).2 (openOf st) =
      some (openOf (handleFinish st ck choice).1) := by
  unfold handleFinish
  by_cases hf : strTruthy choice.finish_reason = true
  · by_cases hs : st.sentContentBlockStart
    · simp [hf, h, hs, openOf, scanBlocks, scanStep]
    · simp [hf, h, hs, openOf, scanBlocks, scanStep]
  · simp [hf, h, scanBlocks]

theorem messageStartStep_sMS (st : TransformerState) (ck : OpenAIStreamChunk) :
    (messageStartStep st ck).1.sentMessageStop = st.sentMessageStop := by
  unfold messageStartStep
  by_cases hm : st.sentMessageStart = true
  · simp [hm]
  · simp [hm]

theorem messageStartStep_openOf (st : TransformerState) (ck : OpenAIStreamChunk) :
    openOf (messageStartStep st ck).1 = openOf st := by
  unfold messageStartStep
  by_cases hm : st.sentMessageStart = true
  · simp [hm]
  · simp [hm, openOf]

theorem messageStartStep_scan (st : TransformerState) (ck : OpenAIStreamChunk)
    (cur : Option Nat) :
    scanBlocks (messageStartStep st ck).2 cur = some cur := by
  unfold messageStartStep
  by_cases hm : st.sentMessageStart = true
  · simp [hm, scanBlocks]
  · simp [hm, scanBlocks, scanStep]

theorem trackUsage_sMS (st : TransformerState) (ck : OpenAIStreamChunk) :
    (trackUsage st ck).sentMessageStop = st.sentMessageStop := by
  unfold trackUsage
  cases hu : ck.usage with
  | some u => simp [hu]
  | none => simp [hu]

theorem trackUsage_openOf (st : TransformerState) (ck : OpenAIStreamChunk) :
    openOf (trackUsage st ck) = openOf st := by
  unfold trackUsage
  cases hu : ck.usage with
  | some u => simp [hu, openOf]
  | none => simp [hu]

theorem contentStep_sMS (st : TransformerState) (choice : ChunkChoice) :
    (contentStep st choice).1.sentMessageStop = st.sentMessageStop := by
  unfold contentStep
  by_cases hc : strTruthy choice.delta.content = true
  · simp only [hc, if_true]
    exact handleText_sMS st _
  · simp [hc]

theorem contentStep_scan (st : TransformerState) (choice : ChunkChoice)
    (h : st.sentMessageStop = false) :
    scanBlocks (contentStep st choice).2 (openOf st) =
      some (openOf (contentStep st choice).1) := by
  unfold contentStep
  by_cases hc : strTruthy choice.delta.content = true
  · simp only [hc, if_true]
    exact handleText_scan st _ h
  · simp [hc, scanBlocks]

theorem toolCallsStep_sMS (st : TransformerState) (choice : ChunkChoice) :
    (toolCallsStep st choice).1.sentMessageStop = st.sentMessageStop := by
  unfold toolCallsStep
  cases ht : choice.delta.tool_calls with
  | some tcs =>
    simp only [ht]
    exact handleToolCalls_sMS st tcs
  | none => simp [ht]

theorem toolCallsStep_scan (st : TransformerState) (choice : ChunkChoice)
    (h : st.sentMessageStop = false) :
    scanBlocks (toolCallsStep st choice).2 (openOf st) =
      some (openOf (toolCallsStep st choice).1) := by
  unfold toolCallsStep
  cases ht : choice.delta.tool_calls with
  | some tcs =>
    simp only [ht]
    exact handleToolCalls_scan st tcs h
  | none => simp [ht, scanBlocks]

theorem processChoice_sMS (st : TransformerState) (ck : OpenAIStreamChunk)
    (choice : ChunkChoice) :
    (processChoice st ck choice).1.sentMessageStop =
      (strTruthy choice.finish_reason || st.sentMessageStop) := by
  unfold processChoice
  rw [trackUsage_sMS, handleFinish_sMS, toolCallsStep_sMS, contentStep_sMS]

theorem processChoice_scan (st : TransformerState) (ck : OpenAIStreamChunk)
    (choice : ChunkChoice) (h : st.sentMessageStop = false) :
    scanBlocks (processChoice st ck choice).2 (openOf st) =
      some (openOf (processChoice st ck choice).1) := by
  unfold processChoice
  simp only
  have h1 : (contentStep st choice).1.sentMessageStop = false :=
    (contentStep_sMS st choice).trans h
  have h2 : (toolCallsStep (contentStep st choice).1 choice).1.sentMessageStop = false :=
    (toolCallsStep_sMS _ choice).trans h1
  rw [scanBlocks_append, scanBlocks_append, contentStep_scan st choice h,
    Option.some_bind, toolCallsStep_scan _ choice h1, Option.some_bind,
    handleFinish_scan _ ck choice h2, trackUsage_openOf]

theorem processChunk_sMS (st : TransformerState) (ck : OpenAIStreamChunk) :
    (processChunk st ck).1.sentMessageStop =
      (lineHasFinish (.chunk ck) || st.sentMessageStop) := by
  unfold processChunk lineHasFinish
  cases hc : ck.choices.head? with
  | none => simp [hc, messageStartStep_sMS]
  | some choice =>
    simp only [hc]
    rw [processChoice_sMS, messageStartStep_sMS]

theorem processChunk_scan_open (st : TransformerState) (ck : OpenAIStreamChunk)
    (h : st.sentMessageStop = false) :
    scanBlocks (processChunk st ck).2 (openOf st) =
      some (openOf (processChunk st ck).1) := by
  unfold processChunk
  cases hc : ck.choices.head? with
  | none => simp [messageStartStep_scan, messageStartStep_openOf]
  | some choice =>
    simp only
    have h0 : (messageStartStep st ck).1.sentMessageStop = false :=
      (messageStartStep_sMS st ck).trans h
    rw [scanBlocks_append, messageStartStep_scan, Option.some_bind]
    rw [show openOf st = openOf (messageStartStep st ck).1 from
      (messageStartStep_openOf st ck).symm]
    exact processChoice_scan _ ck choice h0

/-! ## Fold invariants over line sequences -/

theorem okLines_false_cons (l : LineInput) (ls : List LineInput) :
    okLines false (l :: ls) = okLines (lineHasFinish l) ls := rfl

theorem okLines_true_cons (l : LineInput) (ls : List LineInput) :
    okLines true (l :: ls) = (!lineContentBearing l && okLines true ls) := rfl

theorem processChunk_scan_closed (st : TransformerState) (ck : OpenAIStreamChunk)
    (h : st.sentMessageStop = true)
    (hnc : lineContentBearing (.chunk ck) = false) :
    scanBlocks (processChunk st ck).2 (openOf st) =
      some (openOf (processChunk st ck).1) := by
  have hopen : openOf st = none := by simp [openOf, h]
  have hsms : (processChunk st ck).1.sentMessageStop = true := by
    rw [processChunk_sMS, h, Bool.or_true]
  have hopen2 : openOf (processChunk st ck).1 = none := by simp [openOf, hsms]
  rw [hopen, hopen2]
  unfold processChunk
  cases hc : ck.choices.head? with
  | none => rw [messageStartStep_scan]
  | some choice =>
    simp only
    simp only [lineContentBearing, hc] at hnc
    have hct : strTruthy choice.delta.content = false := by
      cases hx : strTruthy choice.delta.content
      · rfl
      · rw [hx, Bool.true_or] at hnc
        exact absurd hnc (by simp)
    have htc : choice.delta.tool_calls = none := by
      cases hx : choice.delta.tool_calls with
      | none => rfl
      | some tcs =>
        rw [hx] at hnc
        simp at hnc
    have hsms0 : (messageStartStep st ck).1.sentMessageStop = true :=
      (messageStartStep_sMS st ck).trans h
    have hev : (processChoice (messageStartStep st ck).1 ck choice).2 = [] := by
      unfold processChoice
      simp only
      have e1 : contentStep (messageStartStep st ck).1 choice =
          ((messageStartStep st ck).1, []) := by
        unfold contentStep
        simp [hct]
      rw [e1]
      have e2 : toolCallsStep (messageStartStep st ck).1 choice =
          ((messageStartStep st ck).1, []) := by
        unfold toolCallsStep
        simp [htc]
      rw [e2]
      have e3 : handleFinish (messageStartStep st ck).1 ck choice =
          ((messageStartStep st ck).1, []) := by
        unfold handleFinish
        simp [hsms0]
      rw [e3]
      simp
    rw [scanBlocks_append, messageStartStep_scan, Option.some_bind, hev]
    rfl

theorem processChunk_sMS_true (st : TransformerState) (ck : OpenAIStreamChunk)
    (h : st.sentMessageStop = true) :
    (processChunk st ck).1.sentMessageStop = true := by
  rw [processChunk_sMS, h, Bool.or_true]

theorem processLineInput_sMS (st : TransformerState) (l : LineInput) :
    (processLineInput st l).1.sentMessageStop =
      (lineHasFinish l || st.sentMessageStop) := by
  cases l with
  | done => simp [processLineInput, lineHasFinish]
  | skip => simp [processLineInput, lineHasFinish]
  | chunk ck => exact processChunk_sMS st ck

theorem runLineInputs_sMS_true (ls : List LineInput) (st : TransformerState)
    (h : st.sentMessageStop = true) :
    (runLineInputs st ls).1.sentMessageStop = true := by
  induction ls generalizing st with
  | nil => exact h
  | cons l ls ih =>
    unfold runLineInputs
    exact ih _ (by rw [processLineInput_sMS, h, Bool.or_true])

theorem runLineInputs_sMS_of_any (ls : List LineInput) (st : TransformerState)
    (h : ls.any lineHasFinish = true) :
    (runLineInputs st ls).1.sentMessageStop = true := by
  induction ls generalizing st with
  | nil => simp at h
  | cons l ls ih =>
    unfold runLineInputs
    simp only [List.any_cons, Bool.or_eq_true] at h
    cases h with
    | inl hl =>
      exact runLineInputs_sMS_true ls _ (by rw [processLineInput_sMS, hl, Bool.true_or])
    | inr hrest => exact ih _ hrest

theorem runLineInputs_scan : ∀ (lines : List LineInput) (st : TransformerState),
    okLines st.sentMessageStop lines = true →
    scanBlocks (runLineInputs st lines).2 (openOf st) =
      some (openOf (runLineInputs st lines).1)
  | [], st, _ => rfl
  | l :: ls, st, hok => by
    unfold runLineInputs
    simp only
    rw [scanBlocks_append]
    have hmain : scanBlocks (processLineInput st l).2 (openOf st) =
        some (openOf (processLineInput st l).1) := by
      cases l with
      | done => rfl
      | skip => rfl
      | chunk ck =>
        cases hs : st.sentMessageStop with
        | false => exact processChunk_scan_open st ck hs
        | true =>
          rw [hs] at hok
          rw [okLines_true_cons] at hok
          have hnc : lineContentBearing (LineInput.chunk ck) = false := by
            cases hx : lineContentBearing (LineInput.chunk ck)
            · rfl
            · rw [hx] at hok
              simp at hok
          exact processChunk_scan_closed st ck hs hnc
    rw [hmain, Option.some_bind]
    apply runLineInputs_scan ls
    cases hs : st.sentMessageStop with
    | false =>
      rw [hs] at hok
      rw [okLines_false_cons] at hok
      have : (processLineInput st l).1.sentMessageStop = lineHasFinish l := by
        rw [processLineInput_sMS, hs, Bool.or_false]
      rw [this]
      exact hok
    | true =>
      rw [hs] at hok
      rw [okLines_true_cons] at hok
      have : (processLineInput st l).1.sentMessageStop = true := by
        rw [processLineInput_sMS, hs, Bool.or_true]
      rw [this]
      exact (Bool.and_eq_true _ _ |>.mp hok).2

/-!
## Claim C1
-/

/-- C1 (amended): for every backend delta-line sequence in which no text
fragment or tool-call fragment follows a finish-reason delta, the block
events of the transcoded output are well nested (scanBlocks succeeds: no
two blocks are open at once, and every content_block_stop carries the
index of the currently open content_block_start); and when the sequence
contains a finish-reason delta, every opened block is closed again, so the
number of content_block_start events equals the number of
content_block_stop events.  The original claim, without the two side
conditions, is refuted by C1_single_text_delta_unbalanced. -/
theorem C1_blockEvents_balanced (lines : List LineInput)
    (hok : okLines false lines = true) :
    (∃ fin : Option Nat,
        scanBlocks (runLineInputs initState lines).2 none = some fin) ∧
      (lines.any lineHasFinish = true →
        scanBlocks (runLineInputs initState lines).2 none = some none ∧
          (runLineInputs initState lines).2.countP isStartEv =
            (runLineInputs initState lines).2.countP isStopEv) := by
  have hscan : scanBlocks (runLineInputs initState lines).2 none =
      some (openOf (runLineInputs initState lines).1) :=
    runLineInputs_scan lines initState hok
  refine ⟨⟨_, hscan⟩, fun hany => ?_⟩
  have hs : (runLineInputs initState lines).1.sentMessageStop = true :=
    runLineInputs_sMS_of_any lines initState hany
  have hopen : openOf (runLineInputs initState lines).1 = none := by
    simp [openOf, hs]
  rw [hopen] at hscan
  refine ⟨hscan, ?_⟩
  have hcount := scanBlocks_count _ none none hscan
  simpa using hcount

/-- Witness for C1_blockEvents_balanced at the specification scenario
(text deltas Hel, lo, then a stop finish reason). -/
theorem C1_blockEvents_balanced_witness :
    okLines false linesTextFinish = true ∧
      ((∃ fin : Option Nat,
          scanBlocks (runLineInputs initState linesTextFinish).2 none = some fin) ∧
        (linesTextFinish.any lineHasFinish = true →
          scanBlocks (runLineInputs initState linesTextFinish).2 none = some none ∧
            (runLineInputs initState linesTextFinish).2.countP isStartEv =
              (runLineInputs initState linesTextFinish).2.countP isStopEv)) :=
  ⟨by decide, C1_blockEvents_balanced linesTextFinish (by decide)⟩

/-- Counterexample to C1 as stated: a single text delta with no
finish-reason delta afterwards opens a content block that is never
closed, so the output has one content_block_start and zero
content_block_stop events. -/
theorem C1_single_text_delta_unbalanced :
    (runLineInputs initState lineTextOnly).2.countP isStartEv = 1 ∧
      (runLineInputs initState lineTextOnly).2.countP isStopEv = 0 := by
  decide

/-!
## Claim C2: at most one terminal event pair
-/

theorem termFree_append (a b : List AEvent) :
    termFree (a ++ b) = (termFree a && termFree b) := by
  simp [termFree, List.all_append]

theorem countP_mstop_of_termFree (evs : List AEvent) (h : termFree evs = true) :
    evs.countP isMessageStopEv = 0 ∧ evs.countP isMessageDeltaEv = 0 := by
  unfold termFree at h
  rw [List.all_eq_true] at h
  constructor <;> rw [List.countP_eq_zero] <;> intro e he <;>
    have := h e he <;> simp at this <;> simp [this]

theorem handleText_termFree (st : TransformerState) (c : Str) :
    termFree (handleText st c).2 = true := by
  unfold handleText
  by_cases hs : st.sentContentBlockStart = true <;>
    by_cases hct : st.currentContentType = some ContentType.text <;>
      simp [hs, hct, termFree, isMessageStopEv, isMessageDeltaEv]

theorem registerToolCall_termFree (st : TransformerState) (tc : ToolCallFragment) :
    termFree (registerToolCall st tc).2 = true := by
  unfold registerToolCall
  by_cases hr : ((mapGet st.toolCalls tc.index).isNone && strTruthy tc.id &&
      strTruthy (tc.function.bind fun x => x.name)) = true
  · by_cases hs : st.sentContentBlockStart = true <;>
      simp [hr, hs, termFree, isMessageStopEv, isMessageDeltaEv]
  · simp [hr, termFree]

theorem forwardToolArgs_termFree (st : TransformerState) (tc : ToolCallFragment) :
    termFree (forwardToolArgs st tc).2 = true := by
  unfold forwardToolArgs
  by_cases ha : strTruthy (tc.function.bind fun x => x.arguments) = true
  · cases hm : mapGet st.toolCalls tc.index with
    | some call => simp [ha, hm, termFree, isMessageStopEv, isMessageDeltaEv]
    | none => simp [ha, hm, termFree]
  · simp [ha, termFree]

theorem handleToolFragment_termFree (st : TransformerState) (tc : ToolCallFragment) :
    termFree (handleToolFragment st tc).2 = true := by
  unfold handleToolFragment
  simp only
  rw [termFree_append, registerToolCall_termFree, forwardToolArgs_termFree]
  rfl

theorem handleToolCalls_termFree (st : TransformerState) (tcs : List ToolCallFragment) :
    termFree (handleToolCalls st tcs).2 = true := by
  induction tcs generalizing st with
  | nil => rfl
  | cons tc rest ih =>
    unfold handleToolCalls
    simp only
    rw [termFree_append, handleToolFragment_termFree, ih]
    rfl

theorem messageStartStep_termFree (st : TransformerState) (ck : OpenAIStreamChunk) :
    termFree (messageStartStep st ck).2 = true := by
  unfold messageStartStep
  by_cases hm : st.sentMessageStart = true
  · simp [hm, termFree]
  · simp [hm, termFree, isMessageStopEv, isMessageDeltaEv]

theorem contentStep_termFree (st : TransformerState) (choice : ChunkChoice) :
    termFree (contentStep st choice).2 = true := by
  unfold contentStep
  by_cases hc : strTruthy choice.delta.content = true
  · simp only [hc, if_true]
    exact handleText_termFree st _
  · simp [hc, termFree]

theorem toolCallsStep_termFree (st : TransformerState) (choice : ChunkChoice) :
    termFree (toolCallsStep st choice).2 = true := by
  unfold toolCallsStep
  cases ht : choice.delta.tool_calls with
  | some tcs =>
    simp only [ht]
    exact handleToolCalls_termFree st tcs
  | none => simp [ht, termFree]

theorem handleFinish_termCount (st : TransformerState) (ck : OpenAIStreamChunk)
    (choice : ChunkChoice) :
    (handleFinish st ck choice).2.countP isMessageStopEv =
        (if strTruthy choice.finish_reason && !st.sentMessageStop then 1 else 0) ∧
      (handleFinish st ck choice).2.countP isMessageDeltaEv =
        (if strTruthy choice.finish_reason && !st.sentMessageStop then 1 else 0) := by
  unfold handleFinish
  by_cases hf : (strTruthy choice.finish_reason && !st.sentMessageStop) = true
  · by_cases hs : st.sentContentBlockStart = true <;>
      simp [hf, hs, List.countP_cons, isMessageStopEv, isMessageDeltaEv]
  · simp [hf]

theorem processChoice_termCount (st : TransformerState) (ck : OpenAIStreamChunk)
    (choice : ChunkChoice) :
    (processChoice st ck choice).2.countP isMessageStopEv =
        (if strTruthy choice.finish_reason && !st.sentMessageStop then 1 else 0) ∧
      (processChoice st ck choice).2.countP isMessageDeltaEv =
        (if strTruthy choice.finish_reason && !st.sentMessageStop then 1 else 0) := by
  unfold processChoice
  simp only
  have hc1 := countP_mstop_of_termFree _ (contentStep_termFree st choice)
  have hc2 := countP_mstop_of_termFree _
    (toolCallsStep_termFree (contentStep st choice).1 choice)
  have hfin := handleFinish_termCount
    (toolCallsStep (contentStep st choice).1 choice).1 ck choice
  have hsms : (toolCallsStep (contentStep st choice).1 choice).1.sentMessageStop =
      st.sentMessageStop := by
    rw [toolCallsStep_sMS, contentStep_sMS]
  rw [hsms] at hfin
  simp [List.countP_append, hc1.1, hc1.2, hc2.1, hc2.2, hfin.1, hfin.2]

theorem processChunk_termCount (st : TransformerState) (ck : OpenAIStreamChunk) :
    (processChunk st ck).2.countP isMessageStopEv =
        (if lineHasFinish (.chunk ck) && !st.sentMessageStop then 1 else 0) ∧
      (processChunk st ck).2.countP isMessageDeltaEv =
        (if lineHasFinish (.chunk ck) && !st.sentMessageStop then 1 else 0) := by
  unfold processChunk lineHasFinish
  cases hc : ck.choices.head? with
  | none =>
    have h0 := countP_mstop_of_termFree _ (messageStartStep_termFree st ck)
    simp [hc, h0.1, h0.2]
  | some choice =>
    simp only [hc]
    have h0 := countP_mstop_of_termFree _ (messageStartStep_termFree st ck)
    have hpc := processChoice_termCount (messageStartStep st ck).1 ck choice
    rw [messageStartStep_sMS] at hpc
    simp [List.countP_append, h0.1, h0.2, hpc.1, hpc.2]

theorem processLineInput_termCount (st : TransformerState) (l : LineInput) :
    (processLineInput st l).2.countP isMessageStopEv =
        (if lineHasFinish l && !st.sentMessageStop then 1 else 0) ∧
      (processLineInput st l).2.countP isMessageDeltaEv =
        (if lineHasFinish l && !st.sentMessageStop then 1 else 0) := by
  cases l with
  | done => simp [processLineInput, lineHasFinish]
  | skip => simp [processLineInput, lineHasFinish]
  | chunk ck => exact processChunk_termCount st ck

theorem runLineInputs_termCount (lines : List LineInput) (st : TransformerState) :
    (runLineInputs st lines).2.countP isMessageStopEv ≤
        (if st.sentMessageStop then 0 else 1) ∧
      (runLineInputs st lines).2.countP isMessageDeltaEv ≤
        (if st.sentMessageStop then 0 else 1) := by
  induction lines generalizing st with
  | nil => simp [runLineInputs]
  | cons l ls ih =>
    unfold runLineInputs
    simp only [List.countP_append]
    have hline := processLineInput_termCount st l
    have hrest := ih (processLineInput st l).1
    rw [processLineInput_sMS] at hrest
    cases hs : st.sentMessageStop with
    | true =>
      simp [hs, -List.countP_eq_zero] at hline hrest ⊢
      omega
    | false =>
      simp [hs, -List.countP_eq_zero] at hline hrest ⊢
      cases hf : lineHasFinish l <;>
        simp [hf, -List.countP_eq_zero] at hline hrest <;> omega

/-- C2: for every input line sequence (including sequences containing both
a finish-reason delta and the [DONE] sentinel, in either order), the
transcoder emits at most one message_delta and at most one message_stop:
at most one terminal event pair per session. -/
theorem C2_at_most_one_terminal_pair (lines : List LineInput) :
    (runLineInputs initState lines).2.countP isMessageDeltaEv ≤ 1 ∧
      (runLineInputs initState lines).2.countP isMessageStopEv ≤ 1 := by
  have h := runLineInputs_termCount lines initState
  have hs : initState.sentMessageStop = false := rfl
  rw [hs] at h
  simp at h
  exact ⟨h.2, h.1⟩

/-!
## Claim C7: deltas after the terminal pair still produce output
-/

/-- C7 (refuting the absorbing-Closed behaviour on the code): after the
terminal pair has been emitted for a stop finish reason, a further text
delta still produces a content_block_delta event (the seventh event
below), because the content handler does not consult sentMessageStop. -/
theorem C7_delta_after_close_emits :
    (runLineInputs initState linesAfterStop).2 =
      [ .messageStart 0,
        .contentBlockStart 0 .text,
        .contentBlockDelta 0 (.textDelta "hi".toList),
        .contentBlockStop 0,
        .messageDelta "end_turn".toList (some 0) 0,
        .messageStop,
        .contentBlockDelta 0 (.textDelta "more".toList) ] := by
  decide

/-!
## Claim C3: byte-for-byte argument forwarding
-/

theorem forwardedJson_append (a b : List AEvent) :
    forwardedJson (a ++ b) = forwardedJson a ++ forwardedJson b := by
  simp [forwardedJson, List.filterMap_append]

theorem mapGet_mapSet_self (m : List (Nat × ToolCallAcc)) (k : Nat) (v : ToolCallAcc) :
    mapGet (mapSet m k v) k = some v := by
  induction m with
  | nil => simp [mapSet, mapGet, List.find?]
  | cons p rest ih =>
    obtain ⟨k1, v1⟩ := p
    by_cases hk : k1 = k
    · simp [mapSet, hk, mapGet, List.find?]
    · simp only [mapSet, if_neg hk]
      simp only [mapGet, List.find?] at ih ⊢
      simp [hk, ih]

theorem strTruthy_false_getD (o : Option Str) (h : strTruthy o = false) :
    o.getD [] = [] := by
  cases o with
  | none => rfl
  | some s =>
    simp [strTruthy] at h
    simp [h]

theorem messageStartStep_toolCalls (st : TransformerState) (ck : OpenAIStreamChunk) :
    (messageStartStep st ck).1.toolCalls = st.toolCalls := by
  unfold messageStartStep
  by_cases hm : st.sentMessageStart = true <;> simp [hm]

theorem messageStartStep_fwd (st : TransformerState) (ck : OpenAIStreamChunk) :
    forwardedJson (messageStartStep st ck).2 = [] := by
  unfold messageStartStep
  by_cases hm : st.sentMessageStart = true <;> simp [hm, forwardedJson]

theorem processChunk_toolLine (st : TransformerState) (tc : ToolCallFragment) :
    processChunk st (mkToolChunk [tc]) =
      ((handleToolFragment (messageStartStep st (mkToolChunk [tc])).1 tc).1,
        (messageStartStep st (mkToolChunk [tc])).2 ++
          (handleToolFragment (messageStartStep st (mkToolChunk [tc])).1 tc).2) := by
  unfold processChunk processChoice contentStep toolCallsStep handleToolCalls
    handleFinish trackUsage
  simp [mkToolChunk, strTruthy]
  exact ⟨rfl, rfl⟩

theorem handleToolFragment_registered (st : TransformerState) (tc : ToolCallFragment)
    (hreg : (mapGet st.toolCalls tc.index).isSome = true) :
    forwardedJson (handleToolFragment st tc).2 =
        (tc.function.bind fun x => x.arguments).getD [] ∧
      (mapGet (handleToolFragment st tc).1.toolCalls tc.index).isSome = true := by
  unfold handleToolFragment
  simp only
  have hrc : registerToolCall st tc = (st, []) := by
    unfold registerToolCall
    have hn : (mapGet st.toolCalls tc.index).isNone = false := by
      cases h : mapGet st.toolCalls tc.index
      · rw [h] at hreg
        simp at hreg
      · simp
    simp [hn]
  rw [hrc]
  simp only
  unfold forwardToolArgs
  by_cases ha : strTruthy (tc.function.bind fun x => x.arguments) = true
  · obtain ⟨call, hcall⟩ := Option.isSome_iff_exists.mp hreg
    simp [ha, hcall, forwardedJson, mapGet_mapSet_self]
  · simp [ha, forwardedJson, strTruthy_false_getD _ (by simpa using ha), hreg]

theorem handleToolFragment_first (st : TransformerState) (tc : ToolCallFragment)
    (hunreg : mapGet st.toolCalls tc.index = none)
    (hid : strTruthy tc.id = true)
    (hname : strTruthy (tc.function.bind fun x => x.name) = true) :
    forwardedJson (handleToolFragment st tc).2 =
        (tc.function.bind fun x => x.arguments).getD [] ∧
      (mapGet (handleToolFragment st tc).1.toolCalls tc.index).isSome = true := by
  unfold handleToolFragment
  simp only
  have hrc1 : (registerToolCall st tc).1.toolCalls =
      mapSet st.toolCalls tc.index
        { id := tc.id.getD [], name := (tc.function.bind fun x => x.name).getD [],
          arguments := [] } := by
    unfold registerToolCall
    simp [hunreg, hid, hname]
  have hrc2 : forwardedJson (registerToolCall st tc).2 = [] := by
    unfold registerToolCall
    by_cases hs : st.sentContentBlockStart = true <;>
      simp [hunreg, hid, hname, hs, forwardedJson]
  rw [forwardedJson_append, hrc2, List.nil_append]
  unfold forwardToolArgs
  by_cases ha : strTruthy (tc.function.bind fun x => x.arguments) = true
  · simp [ha, hrc1, mapGet_mapSet_self, forwardedJson]
  · simp [ha, hrc1, mapGet_mapSet_self, forwardedJson,
      strTruthy_false_getD _ (by simpa using ha)]

theorem processFragLine_registered (st : TransformerState) (tc : ToolCallFragment)
    (hreg : (mapGet st.toolCalls tc.index).isSome = true) :
    forwardedJson (processChunk st (mkToolChunk [tc])).2 =
        (tc.function.bind fun x => x.arguments).getD [] ∧
      (mapGet (processChunk st (mkToolChunk [tc])).1.toolCalls tc.index).isSome = true := by
  rw [processChunk_toolLine]
  simp only
  rw [forwardedJson_append, messageStartStep_fwd, List.nil_append]
  have hreg0 : (mapGet (messageStartStep st (mkToolChunk [tc])).1.toolCalls
      tc.index).isSome = true := by
    rw [messageStartStep_toolCalls]
    exact hreg
  exact handleToolFragment_registered _ tc hreg0

theorem processFragLine_first (st : TransformerState) (tc : ToolCallFragment)
    (hunreg : mapGet st.toolCalls tc.index = none)
    (hid : strTruthy tc.id = true)
    (hname : strTruthy (tc.function.bind fun x => x.name) = true) :
    forwardedJson (processChunk st (mkToolChunk [tc])).2 =
        (tc.function.bind fun x => x.arguments).getD [] ∧
      (mapGet (processChunk st (mkToolChunk [tc])).1.toolCalls tc.index).isSome = true := by
  rw [processChunk_toolLine]
  simp only
  rw [forwardedJson_append, messageStartStep_fwd, List.nil_append]
  have hunreg0 : mapGet (messageStartStep st (mkToolChunk [tc])).1.toolCalls
      tc.index = none := by
    rw [messageStartStep_toolCalls]
    exact hunreg
  exact handleToolFragment_first _ tc hunreg0 hid hname

theorem runFragLines_registered (k : Nat) :
    ∀ (frags : List ToolCallFragment) (st : TransformerState),
    frags.all (fun tc => tc.index = k) = true →
    (mapGet st.toolCalls k).isSome = true →
    forwardedJson (runLineInputs st (frags.map fragLine)).2 = backendArgs frags
  | [], st, _, _ => rfl
  | f :: rest, st, hall, hreg => by
    simp only [List.map_cons]
    unfold runLineInputs
    simp only
    rw [forwardedJson_append]
    simp only [List.all_cons, Bool.and_eq_true] at hall
    have hfk : f.index = k := by simpa using hall.1
    have hreg1 : (mapGet st.toolCalls f.index).isSome = true := by
      rw [hfk]
      exact hreg
    have hline := processFragLine_registered st f hreg1
    have hpl : processLineInput st (fragLine f) = processChunk st (mkToolChunk [f]) := rfl
    rw [hpl, hline.1]
    have hreg2 : (mapGet (processChunk st (mkToolChunk [f])).1.toolCalls k).isSome = true := by
      rw [← hfk]
      exact hline.2
    rw [runFragLines_registered k rest _ hall.2 hreg2]
    rfl

/-- C3 (amended): for every sequence of tool-call fragments sharing one
backend call-index whose first fragment carries a truthy id and function
name (so the index is registered on first sight), the concatenation, in
emission order, of the strings carried by the forwarded input_json_delta
events equals byte for byte the concatenation of the function.arguments
fragments received from the backend.  The original claim, with no
condition on the first fragment, is refuted by
C3_unregistered_fragment_dropped. -/
theorem C3_args_concatenation (k : Nat) (f : ToolCallFragment)
    (rest : List ToolCallFragment)
    (hall : (f :: rest).all (fun tc => tc.index = k) = true)
    (hid : strTruthy f.id = true)
    (hname : strTruthy (f.function.bind fun x => x.name) = true) :
    forwardedJson (runLineInputs initState ((f :: rest).map fragLine)).2 =
      backendArgs (f :: rest) := by
  simp only [List.map_cons]
  unfold runLineInputs
  simp only
  rw [forwardedJson_append]
  simp only [List.all_cons, Bool.and_eq_true] at hall
  have hfk : f.index = k := by simpa using hall.1
  have hunreg : mapGet initState.toolCalls f.index = none := rfl
  have hline := processFragLine_first initState f hunreg hid hname
  have hpl : processLineInput initState (fragLine f) =
      processChunk initState (mkToolChunk [f]) := rfl
  rw [hpl, hline.1]
  have hreg2 : (mapGet (processChunk initState (mkToolChunk [f])).1.toolCalls
      k).isSome = true := by
    rw [← hfk]
    exact hline.2
  rw [runFragLines_registered k rest _ hall.2 hreg2]
  rfl

/-- Witness for C3_args_concatenation at the specification scenario:
id c1, name search, then the two argument fragments whose concatenation
is the JSON object string. -/
theorem C3_args_concatenation_witness :
    forwardedJson (runLineInputs initState
        ([fragSearchStart, fragSearchArgs1, fragSearchArgs2].map fragLine)).2 =
      backendArgs [fragSearchStart, fragSearchArgs1, fragSearchArgs2] :=
  C3_args_concatenation 0 fragSearchStart [fragSearchArgs1, fragSearchArgs2]
    (by decide) (by decide) (by decide)

/-- Counterexample to C3 as stated: an argument fragment for a call-index
that was never opened with an id and a name is dropped, not forwarded, so
the forwarded concatenation (empty) differs from the backend
concatenation (the string x). -/
theorem C3_unregistered_fragment_dropped :
    forwardedJson (runLineInputs initState ([fragArgsOnly].map fragLine)).2 ≠
      backendArgs [fragArgsOnly] := by
  decide

/-!
## Claim C4: transport chunking invariance
-/

theorem splitNlAux_cons (c : Char) (s : Str) :
    splitNlAux (c :: s) =
      if c = '\n' then ([], (splitNlAux s).1 :: (splitNlAux s).2)
      else (c :: (splitNlAux s).1, (splitNlAux s).2) := rfl

theorem splitNlAux_noNl_eq (s : Str) (h : ∀ c ∈ s, c ≠ '\n') :
    splitNlAux s = (s, []) := by
  induction s with
  | nil => rfl
  | cons c rest ih =>
    have hc : c ≠ '\n' := h c (List.mem_cons_self c rest)
    have hr := ih fun x hx => h x (List.mem_cons_of_mem c hx)
    simp [splitNlAux_cons, hr, hc]

theorem splitNl_noNl (s : Str) (h : ∀ c ∈ s, c ≠ '\n') : splitNl s = [s] := by
  unfold splitNl
  rw [splitNlAux_noNl_eq s h]

theorem splitNlAux_snd_nil_fst (s : Str) (h : (splitNlAux s).2 = []) :
    (splitNlAux s).1 = s := by
  induction s with
  | nil => rfl
  | cons c rest ih =>
    by_cases hc : c = '\n'
    · rw [splitNlAux_cons, if_pos hc] at h
      simp at h
    · rw [splitNlAux_cons, if_neg hc] at h ⊢
      simp only
      rw [ih h]

theorem carry_noNl (s : Str) :
    ∀ c ∈ (splitNlAux s).2.getLastD (splitNlAux s).1, c ≠ '\n' := by
  induction s with
  | nil =>
    intro c hc
    simp [splitNlAux] at hc
  | cons ch rest ih =>
    by_cases hch : ch = '\n'
    · rw [splitNlAux_cons, if_pos hch]
      simp only [List.getLastD_cons]
      exact ih
    · rw [splitNlAux_cons, if_neg hch]
      simp only
      cases ht : (splitNlAux rest).2 with
      | nil =>
        rw [ht] at ih
        simp only [List.getLastD_nil] at ih ⊢
        intro c hc
        rcases List.mem_cons.mp hc with h1 | h2
        · rw [h1]; exact hch
        · exact ih c h2
      | cons t0 ts =>
        rw [ht] at ih
        rw [List.getLastD_cons] at ih ⊢
        exact ih

theorem splitNlAux_append_noNl (a b : Str) (h : (splitNlAux a).2 = []) :
    splitNlAux (a ++ b) = ((splitNlAux a).1 ++ (splitNlAux b).1, (splitNlAux b).2) := by
  induction a with
  | nil => simp [splitNlAux]
  | cons c a ih =>
    by_cases hc : c = '\n'
    · rw [splitNlAux_cons, if_pos hc] at h
      simp at h
    · rw [splitNlAux_cons, if_neg hc] at h
      simp only at h
      rw [List.cons_append, splitNlAux_cons, if_neg hc, ih h,
        splitNlAux_cons, if_neg hc]
      simp

theorem splitNlAux_append_break : ∀ (a b : Str) (t0 : Str) (ts : List Str),
    (splitNlAux a).2 = t0 :: ts →
    splitNlAux (a ++ b) =
      ((splitNlAux a).1,
        (t0 :: ts).dropLast ++
          (ts.getLastD t0 ++ (splitNlAux b).1) :: (splitNlAux b).2)
  | [], b, t0, ts, h => by simp [splitNlAux] at h
  | c :: a, b, t0, ts, h => by
    by_cases hc : c = '\n'
    · rw [splitNlAux_cons, if_pos hc] at h
      simp only [List.cons.injEq] at h
      obtain ⟨h1, h2⟩ := h
      rw [List.cons_append, splitNlAux_cons, if_pos hc, splitNlAux_cons, if_pos hc]
      simp only
      cases hts : (splitNlAux a).2 with
      | nil =>
        rw [hts] at h2
        subst h2
        rw [splitNlAux_append_noNl a b hts, ← h1]
        simp
      | cons u0 us =>
        rw [hts] at h2
        subst h2
        rw [splitNlAux_append_break a b u0 us hts, ← h1]
        simp [List.getLastD_cons]
        rw [List.getLast?_cons, Option.getD_some, ← List.getLastD_eq_getLast?]
    · rw [splitNlAux_cons, if_neg hc] at h
      simp only at h
      rw [List.cons_append, splitNlAux_cons, if_neg hc,
        splitNlAux_append_break a b t0 ts h, splitNlAux_cons, if_neg hc]

theorem runLines_append (parse : Str → Option OpenAIStreamChunk)
    (st : TransformerState) (l1 l2 : List Str) :
    runLines parse st (l1 ++ l2) =
      ((runLines parse (runLines parse st l1).1 l2).1,
        (runLines parse st l1).2 ++ (runLines parse (runLines parse st l1).1 l2).2) := by
  unfold runLines
  rw [List.map_append, runLineInputs_append]

theorem getLastD_append_cons (l1 : List Str) (x : Str) (l2 : List Str) (d : Str) :
    (l1 ++ x :: l2).getLastD d = (x :: l2).getLastD d := by
  rw [List.getLastD_eq_getLast?, List.getLastD_eq_getLast?,
    List.getLast?_append_cons]

theorem feedChunk_append (parse : Str → Option OpenAIStreamChunk)
    (s : StreamSession) (c1 c2 : Str) :
    feedChunk parse s (c1 ++ c2) =
      ((feedChunk parse (feedChunk parse s c1).1 c2).1,
        (feedChunk parse s c1).2 ++
          (feedChunk parse (feedChunk parse s c1).1 c2).2) := by
  have hassoc : s.buffer ++ (c1 ++ c2) = (s.buffer ++ c1) ++ c2 :=
    (List.append_assoc _ _ _).symm
  cases ht : (splitNlAux (s.buffer ++ c1)).2 with
  | nil =>
    have hfst := splitNlAux_snd_nil_fst _ ht
    have h1 : feedChunk parse s c1 = ({ ts := s.ts, buffer := s.buffer ++ c1 }, []) := by
      unfold feedChunk splitNl
      rw [ht, hfst]
      simp [runLines, runLineInputs]
    rw [h1]
    simp only [List.nil_append]
    unfold feedChunk splitNl
    simp only
    rw [hassoc]
  | cons t0 ts =>
    have hbrk := splitNlAux_append_break (s.buffer ++ c1) c2 t0 ts ht
    have hcar : ∀ c ∈ ts.getLastD t0, c ≠ '\n' := by
      have h0 := carry_noNl (s.buffer ++ c1)
      rw [ht, List.getLastD_cons] at h0
      exact h0
    have hbufaux : splitNlAux (ts.getLastD t0 ++ c2) =
        (ts.getLastD t0 ++ (splitNlAux c2).1, (splitNlAux c2).2) := by
      have h0 : splitNlAux (ts.getLastD t0) = (ts.getLastD t0, []) :=
        splitNlAux_noNl_eq _ hcar
      have h1 := splitNlAux_append_noNl (ts.getLastD t0) c2 (by rw [h0])
      rw [h0] at h1
      exact h1
    have h1 : feedChunk parse s c1 =
        ({ ts := (runLines parse s.ts
              ((splitNlAux (s.buffer ++ c1)).1 :: (t0 :: ts).dropLast)).1,
           buffer := ts.getLastD t0 },
          (runLines parse s.ts
            ((splitNlAux (s.buffer ++ c1)).1 :: (t0 :: ts).dropLast)).2) := by
      unfold feedChunk splitNl
      rw [ht]
      simp only [List.dropLast_cons₂, List.getLastD_cons]
    have h2 : ∀ T1 : TransformerState,
        feedChunk parse { ts := T1, buffer := ts.getLastD t0 } c2 =
          ({ ts := (runLines parse T1
                (((ts.getLastD t0 ++ (splitNlAux c2).1) :: (splitNlAux c2).2).dropLast)).1,
             buffer := (splitNlAux c2).2.getLastD (ts.getLastD t0 ++ (splitNlAux c2).1) },
            (runLines parse T1
              (((ts.getLastD t0 ++ (splitNlAux c2).1) :: (splitNlAux c2).2).dropLast)).2) := by
      intro T1
      unfold feedChunk splitNl
      simp only
      rw [hbufaux]
      simp only [List.getLastD_cons]
    have h3 : feedChunk parse s (c1 ++ c2) =
        ({ ts := (runLines parse s.ts
              (((splitNlAux (s.buffer ++ c1)).1 :: (t0 :: ts).dropLast) ++
                ((ts.getLastD t0 ++ (splitNlAux c2).1) :: (splitNlAux c2).2).dropLast)).1,
           buffer := (splitNlAux c2).2.getLastD (ts.getLastD t0 ++ (splitNlAux c2).1) },
          (runLines parse s.ts
            (((splitNlAux (s.buffer ++ c1)).1 :: (t0 :: ts).dropLast) ++
              ((ts.getLastD t0 ++ (splitNlAux c2).1) :: (splitNlAux c2).2).dropLast)).2) := by
      unfold feedChunk splitNl
      rw [hassoc, hbrk]
      simp only
      have hdl : ((splitNlAux (s.buffer ++ c1)).1 ::
            ((t0 :: ts).dropLast ++
              (ts.getLastD t0 ++ (splitNlAux c2).1) :: (splitNlAux c2).2)).dropLast =
          ((splitNlAux (s.buffer ++ c1)).1 :: (t0 :: ts).dropLast) ++
            ((ts.getLastD t0 ++ (splitNlAux c2).1) :: (splitNlAux c2).2).dropLast := by
        rw [List.dropLast_cons_of_ne_nil (by simp), List.dropLast_append_cons,
          List.cons_append]
      have hgl : ((splitNlAux (s.buffer ++ c1)).1 ::
            ((t0 :: ts).dropLast ++
              (ts.getLastD t0 ++ (splitNlAux c2).1) :: (splitNlAux c2).2)).getLastD [] =
          (splitNlAux c2).2.getLastD (ts.getLastD t0 ++ (splitNlAux c2).1) := by
        rw [List.getLastD_cons, getLastD_append_cons, List.getLastD_cons]
      rw [hdl, hgl]
    rw [h1, h2, h3, runLines_append]

theorem feedChunks_cons_merge (parse : Str → Option OpenAIStreamChunk)
    (s : StreamSession) (c1 c2 : Str) (cs : List Str) :
    feedChunks parse s (c1 :: c2 :: cs) = feedChunks parse s ((c1 ++ c2) :: cs) := by
  simp only [feedChunks]
  rw [feedChunk_append]
  simp [List.append_assoc]

theorem feedChunks_flatten_cons (parse : Str → Option OpenAIStreamChunk) :
    ∀ (cs : List Str) (c1 : Str) (s : StreamSession),
    feedChunks parse s (c1 :: cs) = feedChunks parse s [(c1 :: cs).flatten]
  | [], c1, s => by
    simp [List.flatten_cons, List.flatten_nil]
  | c2 :: cs, c1, s => by
    rw [feedChunks_cons_merge, feedChunks_flatten_cons parse cs (c1 ++ c2) s]
    simp [List.flatten_cons, List.append_assoc]

/-- C4: for every backend byte stream and every way of splitting it into
transport chunks (a logical data line may be split across two chunks),
feeding the chunks one by one produces exactly the same output event
sequence and final session as feeding the whole concatenated stream in a
single chunk: the trailing partial line is carried over in the buffer and
only complete lines are acted on.  The statement is universally quantified
over the JSON.parse function, so it holds for every parse behaviour. -/
theorem C4_chunking_invariance (parse : Str → Option OpenAIStreamChunk)
    (chunks : List Str) :
    feedChunks parse initSession chunks =
      feedChunks parse initSession [chunks.flatten] := by
  cases chunks with
  | nil => rfl
  | cons c cs => exact feedChunks_flatten_cons parse cs c initSession

/-!
## Claims C5, C6, C10: classifier and route
-/

theorem detect_eq_some_iff (req : AnthropicRequest) (s : Str) :
    detectWebSearchRequest req = some s ↔
      (strContains (getSystemText req) WEB_SEARCH_SYSTEM_PATTERN = true ∧
        req.messages.length = 1 ∧
        (webSearchMatch (getMessageText (msg0 req))).map trimStr = some s) := by
  unfold detectWebSearchRequest
  by_cases h1 : strContains (getSystemText req) WEB_SEARCH_SYSTEM_PATTERN = true
  · by_cases h2 : req.messages.length = 1
    · cases hm : webSearchMatch (getMessageText (msg0 req)) with
      | none => simp [h1, h2, hm]
      | some cap => simp [h1, h2, hm]
    · simp [h1, h2]
  · simp [h1]

/-- C6 (amended): the route classifies a request as a dedicated web-search
execution with payload q exactly when web search is enabled, the system
text contains the fixed sentinel substring, the request has exactly one
message, the message text matches the fixed query regular expression with
trimmed capture q, and q is nonempty.  The original claim, without the
enabled flag and the nonemptiness of the trimmed capture, is refuted by
C6_empty_capture_not_executed. -/
theorem C6_webSearch_detection (we : Bool) (req : AnthropicRequest) (q : Str) :
    route we req = .webSearch q ↔
      (we = true ∧
        strContains (getSystemText req) WEB_SEARCH_SYSTEM_PATTERN = true ∧
        req.messages.length = 1 ∧
        (webSearchMatch (getMessageText (msg0 req))).map trimStr = some q ∧
        q ≠ []) := by
  unfold route
  by_cases hcond : (we && strTruthy (detectWebSearchRequest req)) = true
  · rw [if_pos hcond]
    obtain ⟨hwe, htr⟩ := Bool.and_eq_true _ _ |>.mp hcond
    cases hd : detectWebSearchRequest req with
    | none =>
      rw [hd] at htr
      simp [strTruthy] at htr
    | some s =>
      rw [hd] at htr
      have hs : s ≠ [] := by
        simpa [strTruthy, List.isEmpty_iff] using htr
      have hiff := (detect_eq_some_iff req s).mp hd
      constructor
      · intro h
        have hq : s = q := by
          cases h
          rfl
        subst hq
        exact ⟨hwe, hiff.1, hiff.2.1, hiff.2.2, hs⟩
      · intro h
        have : some s = some q := by
          rw [← hiff.2.2, h.2.2.2.1]
        cases this
        rfl
  · rw [if_neg hcond]
    constructor
    · intro h
      by_cases hsug : isSuggestionRequest req = true <;> simp [hsug] at h
    · intro ⟨hwe, hsys, hlen, hcap, hq⟩
      exfalso
      apply hcond
      have hd : detectWebSearchRequest req = some q :=
        (detect_eq_some_iff req q).mpr ⟨hsys, hlen, hcap⟩
      rw [hwe, hd]
      simp [strTruthy, List.isEmpty_iff, hq]

/-- Witness for C6_webSearch_detection: a request with the system
sentinel, exactly one message and a nonempty query payload is routed to
the dedicated web-search execution carrying that payload. -/
theorem C6_webSearch_detection_witness :
    route true wit6Request = .webSearch "anthropic lean".toList :=
  (C6_webSearch_detection true wit6Request ("anthropic lean".toList)).mpr
    ⟨rfl, by decide, by decide, by decide, by decide⟩

/-- Counterexample to C6 as stated: all three conditions of the claim hold
(the system text contains the sentinel, there is exactly one message, and
its text matches the query pattern), yet the request is not routed as a
web-search execution, because the captured payload trims to the empty
string and the route treats the empty query as falsy. -/
theorem C6_empty_capture_not_executed :
    strContains (getSystemText cex6Request) WEB_SEARCH_SYSTEM_PATTERN = true ∧
      cex6Request.messages.length = 1 ∧
      (webSearchMatch (getMessageText (msg0 cex6Request))).isSome = true ∧
      isWebSearchAction (route true cex6Request) = false := by
  decide

/-- C5 (amended): a request whose last message contains both a tool_result
block and the suggestion sentinel, and which is not picked up by the
higher-priority web-search rule, is classified SuggestionStub, not
AgentContinuation: the suggestion block outranks the tool-result
continuation handling.  The original claim, which ignores the
higher-priority web-search rule, is refuted by
C5_webSearch_rule_outranks. -/
theorem C5_suggestion_outranks_toolResult (we : Bool) (req : AnthropicRequest)
    (m : AMessage)
    (hws : (we && strTruthy (detectWebSearchRequest req)) = false)
    (hm : req.messages.getLast? = some m)
    (_htr : hasToolResult m = true)
    (hc : strContains (getMessageText m) SUGGESTION_MODE_PATTERN = true) :
    decisionOf (route we req) = .suggestionStub := by
  unfold route
  rw [hws]
  have hsug : isSuggestionRequest req = true := by
    unfold isSuggestionRequest
    rw [hm]
    exact hc
  simp [hsug, decisionOf]

/-- Witness for C5_suggestion_outranks_toolResult: a request whose single
message holds a tool_result block and the sentinel text. -/
theorem C5_suggestion_outranks_toolResult_witness :
    decisionOf (route true wit5Request) = .suggestionStub :=
  C5_suggestion_outranks_toolResult true wit5Request wit5Message
    (by decide) rfl (by decide) (by decide)

/-- Counterexample to C5 as stated: a request whose last message contains
a tool_result block and the suggestion sentinel, but which also satisfies
the web-search execution conditions, is classified DedicatedToolExecution
rather than SuggestionStub (rule 1 outranks rule 2). -/
theorem C5_webSearch_rule_outranks :
    hasToolResult cex5Message = true ∧
      strContains (getMessageText cex5Message) SUGGESTION_MODE_PATTERN = true ∧
      decisionOf (route true cex5Request) =
        .dedicatedToolExecution "x [SUGGESTION MODE: y]".toList ∧
      decisionOf (route true cex5Request) ≠ .suggestionStub := by
  decide

/-- C10: a request that is not treated as a web-search execution and whose
last message text contains the suggestion sentinel never reaches the
backend: the route answers immediately with the blocked-suggestion
response, which for stream=true is exactly message_start, message_delta
with stop_reason end_turn and zero output tokens, and message_stop (no
content-block events), and for stream=false a message with empty content,
stop_reason end_turn and zero usage. -/
theorem C10_suggestion_blocked (we : Bool) (req : AnthropicRequest) (m : AMessage)
    (hws : (we && strTruthy (detectWebSearchRequest req)) = false)
    (hm : req.messages.getLast? = some m)
    (hc : strContains (getMessageText m) SUGGESTION_MODE_PATTERN = true) :
    route we req =
      .blockedSuggestion
        (if streamTruthy req.stream then
          .inl [AEvent.messageStart 0,
                AEvent.messageDelta "end_turn".toList none 0,
                AEvent.messageStop]
        else
          .inr { model := req.model, content := [],
                 stop_reason := "end_turn".toList,
                 usage_input := 0, usage_output := 0 }) := by
  unfold route
  rw [hws]
  have hsug : isSuggestionRequest req = true := by
    unfold isSuggestionRequest
    rw [hm]
    exact hc
  simp only [Bool.false_eq_true, if_false, hsug, if_true]
  rfl

/-- Witness for C10_suggestion_blocked at a streaming suggestion
request. -/
theorem C10_suggestion_blocked_witness :
    route true wit10Request =
      .blockedSuggestion
        (if streamTruthy wit10Request.stream then
          .inl [AEvent.messageStart 0,
                AEvent.messageDelta "end_turn".toList none 0,
                AEvent.messageStop]
        else
          .inr { model := wit10Request.model, content := [],
                 stop_reason := "end_turn".toList,
                 usage_input := 0, usage_output := 0 }) :=
  C10_suggestion_blocked true wit10Request wit10Message (by decide) rfl (by decide)

/-!
## Claims C8, C9: request transformer ToolResult flattening
-/

/-- C8: every tool_result block of a user message with block-array content
becomes exactly one backend tool message, in order, whose tool_call_id is
the block's tool_use_id verbatim and whose content is the block's content
verbatim when it is a string and its JSON stringification otherwise; no
tool_result block is dropped (the output has one entry per tool_result
block).  The statement is universally quantified over the JSON.stringify
functions. -/
theorem C8_toolResult_content_preserved (sb : List ABlock → Str) (sj : Json → Str)
    (blocks : List ABlock)
    (hne : (blocks.filter isToolResultBlock).isEmpty = false) :
    ∃ out : List OAIMessage,
      transformMessage sb sj { role := .user, content := .inr blocks } = .inr out ∧
        out.length = (blocks.filter isToolResultBlock).length ∧
        ∀ (i : Nat) (tid : Str) (c : Sum Str (List ABlock)) (err : Option Bool),
          (blocks.filter isToolResultBlock)[i]? = some (.toolResult tid c err) →
          out[i]? = some (.tool tid
            (match c with
             | .inl s => s
             | .inr bs => sb bs)) := by
  refine ⟨(blocks.filter isToolResultBlock).map (toolResultToMessage sb), ?_, ?_, ?_⟩
  · unfold transformMessage
    simp only [hne, Bool.not_false, if_true]
  · simp
  · intro i tid c err hi
    rw [List.getElem?_map, hi]
    cases c with
    | inl s => rfl
    | inr bs => rfl

/-- Witness for C8_toolResult_content_preserved at a content array holding
a text block and two tool_result blocks. -/
theorem C8_toolResult_content_preserved_witness :
    ∃ out : List OAIMessage,
      transformMessage stubStringifyBlocks stubStringifyJson
          { role := .user, content := .inr c8Blocks } = .inr out ∧
        out.length = (c8Blocks.filter isToolResultBlock).length ∧
        ∀ (i : Nat) (tid : Str) (c : Sum Str (List ABlock)) (err : Option Bool),
          (c8Blocks.filter isToolResultBlock)[i]? = some (.toolResult tid c err) →
          out[i]? = some (.tool tid
            (match c with
             | .inl s => s
             | .inr bs => stubStringifyBlocks bs)) :=
  C8_toolResult_content_preserved stubStringifyBlocks stubStringifyJson c8Blocks
    (by decide)

/-- C9 (implicit): when a user message's block array contains at least one
tool_result block, the transformer emits only the tool messages derived
from the tool_result blocks, one per block; Text and Image blocks of that
message are omitted entirely (every output message has the tool role, and
the output length is the number of tool_result blocks, not of all
blocks). -/
theorem C9_only_toolResults_forwarded (sb : List ABlock → Str) (sj : Json → Str)
    (blocks : List ABlock)
    (hne : (blocks.filter isToolResultBlock).isEmpty = false) :
    ∃ out : List OAIMessage,
      transformMessage sb sj { role := .user, content := .inr blocks } = .inr out ∧
        out.length = blocks.countP isToolResultBlock ∧
        out.all isToolMessage = true := by
  refine ⟨(blocks.filter isToolResultBlock).map (toolResultToMessage sb), ?_, ?_, ?_⟩
  · unfold transformMessage
    simp only [hne, Bool.not_false, if_true]
  · simp [List.countP_eq_length_filter]
  · rw [List.all_eq_true]
    intro m hm
    obtain ⟨b, hb, hbm⟩ := List.mem_map.mp hm
    have hb2 := List.of_mem_filter hb
    cases b with
    | toolResult tid c err =>
      cases c <;> simp [toolResultToMessage, ← hbm, isToolMessage]
    | text t => simp [isToolResultBlock] at hb2
    | image mt d => simp [isToolResultBlock] at hb2
    | toolUse i n inp => simp [isToolResultBlock] at hb2

/-- Witness for C9_only_toolResults_forwarded at a content array holding a
text block, an image block and one tool_result block: the backend sees one
tool message only. -/
theorem C9_only_toolResults_forwarded_witness :
    ∃ out : List OAIMessage,
      transformMessage stubStringifyBlocks stubStringifyJson
          { role := .user, content := .inr c9Blocks } = .inr out ∧
        out.length = c9Blocks.countP isToolResultBlock ∧
        out.all isToolMessage = true :=
  C9_only_toolResults_forwarded stubStringifyBlocks stubStringifyJson c9Blocks
    (by decide)

end ClaudePilot
